import Mathlib

/-!
Verification development for the multi-source data-resolution engine of the
`ai-world-economy-forcaster` repository.

The embedding models the TypeScript source `src/server/api/imf3.ts` (SDMX key
fallback loop, response envelope, the DataMapper/WEO and World Bank data
conversions) and the client-side series cache of the dashboard page
(`loadCache`/`saveCache`).

Modelling conventions:
* JSON values are the inductive `Json` below.  JSON numbers are represented as
  rationals (every JSON numeral denotes a finite decimal).  `undefined` is
  represented as `Option.none` where it can occur (absent object fields);
  `Json.null` is JavaScript `null`.
* JavaScript primitive coercions (`String(...)`, `Number(...)`, `parseFloat`,
  `parseInt`, truthiness, `??` and `||`) are modelled explicitly.  The model
  covers the decimal fragment exactly; the `Infinity` results of `Number` /
  `parseFloat` lie outside the rational value space and are mapped to the
  not-a-number result `none` (they are unreachable from numeric data feeds),
  and exponent formatting of extreme magnitudes in number-to-string conversion
  is not modelled.
* `localeCompare` on the date strings at hand (zero-padded digit strings such
  as "2020", "2020-03") agrees with code-unit comparison, which is how the
  sort comparator is modelled (`charListLe`).
* `Array.prototype.sort` is stable in modern engines; it is modelled by a
  stable insertion sort (`sortPts`).
-/

/-! ## JSON value model

`Json`, `JList` and `JFields` are mutually inductive so that all recursions
over them are structural (and hence reduce inside `decide`/`rfl`). -/

mutual

inductive Json where
  | null : Json
  | bool : Bool → Json
  | num : ℚ → Json
  | str : String → Json
  | arr : JList → Json
  | obj : JFields → Json

inductive JList where
  | nil : JList
  | cons : Json → JList → JList

inductive JFields where
  | nil : JFields
  | cons : String → Json → JFields → JFields

end

deriving instance DecidableEq for Json
deriving instance DecidableEq for JList
deriving instance DecidableEq for JFields

deriving instance DecidableEq for Except

def JList.ofList : List Json → JList
  | [] => .nil
  | x :: xs => .cons x (JList.ofList xs)

def JList.toList : JList → List Json
  | .nil => []
  | .cons x xs => x :: JList.toList xs

def JFields.ofList : List (String × Json) → JFields
  | [] => .nil
  | (k, v) :: fs => .cons k v (JFields.ofList fs)

/-- Convenience constructor for array literals. -/
def jarr (xs : List Json) : Json := .arr (JList.ofList xs)

/-- Convenience constructor for object literals. -/
def jobj (fs : List (String × Json)) : Json := .obj (JFields.ofList fs)

/-- Field lookup on JSON objects: `o[k]` in JavaScript.  `none` models
`undefined` (absent field, or property access on a primitive / array /
null-free base).  Property access on `null`/`undefined` bases throws in
JavaScript; the throwing sites of the source are modelled explicitly at
their use sites, not here. -/
def jsonGet (j : Json) (k : String) : Option Json :=
  match j with
  | .obj fs => go fs
  | _ => none
where go : JFields → Option Json
  | .nil => none
  | .cons key v rest => if key = k then some v else go rest

/-- Whether a `Json` value is a JSON number. -/
def Json.isNum : Json → Bool
  | .num _ => true
  | _ => false

/-- Whether a `Json` value is the `null` literal. -/
def isNullJ : Json → Bool
  | .null => true
  | _ => false

/-- The number carried by a JSON number value, if any. -/
def Json.asNum : Json → Option ℚ
  | .num q => some q
  | _ => none

/-- JavaScript truthiness of a defined value. -/
def jsTruthy : Json → Bool
  | .null => false
  | .bool b => b
  | .num q => decide (q ≠ 0)
  | .str s => decide (s ≠ "")
  | .arr _ => true
  | .obj _ => true

/-- JavaScript truthiness including `undefined`. -/
def jsTruthyOpt : Option Json → Bool
  | none => false
  | some v => jsTruthy v

/-- Whether an optional value is neither `undefined` nor `null`
(the values `??` does NOT skip over). -/
def notNullish : Option Json → Bool
  | none => false
  | some v => !(isNullJ v)

/-- The nullish-coalescing chain `a ?? b ?? c ?? ...` over property reads:
first candidate that is neither `undefined` nor `null`, else `none`
(the final nullish result collapses `null`/`undefined`, which is adequate
everywhere the source uses such a chain: a default is appended via `.getD`). -/
def coalesceNullish : List (Option Json) → Option Json
  | [] => none
  | c :: rest => if notNullish c then c else coalesceNullish rest

/-- `Array.isArray(x) ? x : (x ? [x] : [])` — the coercion the source applies
to the `Series` and `Obs` nodes. -/
def jsArrayify : Option Json → List Json
  | some (.arr xs) => xs.toList
  | some j => if jsTruthy j then [j] else []
  | none => []

/-! ## JavaScript primitive string/number conversions -/

/-- JavaScript whitespace as recognised by `Number`/`parseFloat`/`parseInt`
(the common code points). -/
def jsWs (c : Char) : Bool :=
  c = ' ' ∨ c = '\t' ∨ c = '\n' ∨ c = '\r' ∨ c = '\x0b' ∨ c = '\x0c' ∨
  c = ' ' ∨ c = '﻿'

def digVal? (c : Char) : Option Nat :=
  if '0' ≤ c ∧ c ≤ '9' then some (c.toNat - '0'.toNat) else none

def hexVal? (c : Char) : Option Nat :=
  if '0' ≤ c ∧ c ≤ '9' then some (c.toNat - '0'.toNat)
  else if 'a' ≤ c ∧ c ≤ 'f' then some (c.toNat - 'a'.toNat + 10)
  else if 'A' ≤ c ∧ c ≤ 'F' then some (c.toNat - 'A'.toNat + 10)
  else none

def octVal? (c : Char) : Option Nat :=
  if '0' ≤ c ∧ c ≤ '7' then some (c.toNat - '0'.toNat) else none

def binVal? (c : Char) : Option Nat :=
  if c = '0' then some 0 else if c = '1' then some 1 else none

/-- Longest prefix of digits under a digit-classifier; returns the digit
values and the remaining characters. -/
def takeDigitsWith (f : Char → Option Nat) : List Char → List Nat × List Char
  | [] => ([], [])
  | c :: cs =>
    match f c with
    | some d =>
      let r := takeDigitsWith f cs
      (d :: r.1, r.2)
    | none => ([], c :: cs)

def takeDigits : List Char → List Nat × List Char := takeDigitsWith digVal?

def natOfBase (b : Nat) (ds : List Nat) : Nat := ds.foldl (fun a d => a * b + d) 0

def natOfDigits (ds : List Nat) : Nat := natOfBase 10 ds

/-- Value of a fraction-digit list, e.g. `[0,5]` ↦ 5/100. -/
def fracVal (ds : List Nat) : ℚ := (natOfDigits ds : ℚ) / ((10 : ℚ) ^ ds.length)

/-- Parse a decimal mantissa prefix `Digits [. Digits] | . Digits`;
`none` when no digit is present at the start. -/
def parseMantissa (cs : List Char) : Option (ℚ × List Char) :=
  let ip := takeDigits cs
  if ip.1 = [] then
    match ip.2 with
    | '.' :: r2 =>
      let fp := takeDigits r2
      if fp.1 = [] then none else some (fracVal fp.1, fp.2)
    | _ => none
  else
    match ip.2 with
    | '.' :: r2 =>
      let fp := takeDigits r2
      some ((natOfDigits ip.1 : ℚ) + fracVal fp.1, fp.2)
    | _ => some ((natOfDigits ip.1 : ℚ), ip.2)

/-- Parse an optional exponent suffix `e|E [+|-] Digits`; when the suffix is
not well formed it is not consumed (JavaScript backtracks: `parseFloat "1e"`
is `1`). -/
def parseExpSuffix (cs : List Char) : Option (Int × List Char) :=
  match cs with
  | c :: rest =>
    if c = 'e' ∨ c = 'E' then
      match rest with
      | s :: r2 =>
        if s = '+' ∨ s = '-' then
          let ds := takeDigits r2
          if ds.1 = [] then none
          else some ((if s = '-' then -(natOfDigits ds.1 : Int) else (natOfDigits ds.1 : Int)), ds.2)
        else
          let ds := takeDigits rest
          if ds.1 = [] then none else some ((natOfDigits ds.1 : Int), ds.2)
      | [] => none
    else none
  | [] => none

/-- Scale by a power of ten with integer exponent (avoiding `zpow` keeps the
definition kernel-friendly). -/
def applyExp (q : ℚ) (e : Int) : ℚ :=
  if 0 ≤ e then q * (10 : ℚ) ^ e.toNat else q / (10 : ℚ) ^ (-e).toNat

/-- Parse a decimal literal prefix with optional exponent. -/
def parseDec (cs : List Char) : Option (ℚ × List Char) :=
  match parseMantissa cs with
  | none => none
  | some (q, r) =>
    match parseExpSuffix r with
    | some (e, r2) => some (applyExp q e, r2)
    | none => some (q, r)

/-- `parseFloat(s)` for a string argument: leading whitespace skipped, longest
decimal-literal prefix, trailing garbage ignored, `none` is NaN.  (JavaScript
additionally recognises an `Infinity` literal, which lies outside the
rational value space of this model.) -/
def parseFloatQ (s : String) : Option ℚ :=
  let cs := s.data.dropWhile jsWs
  match cs with
  | '+' :: r => (parseDec r).map (fun p => p.1)
  | '-' :: r => (parseDec r).map (fun p => -p.1)
  | r => (parseDec r).map (fun p => p.1)

/-- A decimal literal that must consume the whole remaining input
(`Number` semantics). -/
def decAll (cs : List Char) : Option ℚ :=
  match parseDec cs with
  | some (q, []) => some q
  | _ => none

/-- A base-`b` literal that must be nonempty and consume the whole input. -/
def baseAll (f : Char → Option Nat) (b : Nat) (cs : List Char) : Option ℚ :=
  let ds := takeDigitsWith f cs
  if ds.1 = [] ∨ ds.2 ≠ [] then none else some ((natOfBase b ds.1 : ℚ))

/-- `Number(s)` for a string argument: trimmed; empty is 0; whole-string
decimal, or unsigned `0x`/`0o`/`0b` literal; `none` is NaN.  (`Infinity`
literals are outside the model, see `parseFloatQ`.) -/
def jsStringToNumber (s : String) : Option ℚ :=
  let cs := ((s.data.dropWhile jsWs).reverse.dropWhile jsWs).reverse
  match cs with
  | [] => some 0
  | '0' :: x :: rest =>
    if x = 'x' ∨ x = 'X' then baseAll hexVal? 16 rest
    else if x = 'o' ∨ x = 'O' then baseAll octVal? 8 rest
    else if x = 'b' ∨ x = 'B' then baseAll binVal? 2 rest
    else decAll cs
  | '+' :: r => decAll r
  | '-' :: r => (decAll r).map Neg.neg
  | _ => decAll cs

/-- `parseInt(s)` (radix unspecified: base 10, or base 16 after an `0x`/`0X`
prefix); truncates at the first non-digit; `none` is NaN. -/
def parseIntJs (s : String) : Option Int :=
  let cs := s.data.dropWhile jsWs
  let signed : Bool × List Char :=
    match cs with
    | '+' :: r => (false, r)
    | '-' :: r => (true, r)
    | r => (false, r)
  let core : Option Nat :=
    match signed.2 with
    | '0' :: x :: rest =>
      if x = 'x' ∨ x = 'X' then
        let ds := takeDigitsWith hexVal? rest
        if ds.1 = [] then none else some (natOfBase 16 ds.1)
      else
        let ds := takeDigits signed.2
        if ds.1 = [] then none else some (natOfDigits ds.1)
    | r =>
      let ds := takeDigits r
      if ds.1 = [] then none else some (natOfDigits ds.1)
  core.map (fun n => if signed.1 then -(n : Int) else (n : Int))

/-- Left-pad a digit string with zeros to width `k`. -/
def padLeftZeros (s : String) (k : Nat) : String :=
  if s.length < k then String.mk (List.replicate (k - s.length) '0') ++ s else s

/-- JavaScript number-to-string for the decimal-representable rationals (the
values reachable from JSON numerals): minimal decimal expansion.  Exponent
notation for extreme magnitudes, and non-decimal rationals (unreachable from
parsed JSON), are outside the model; the latter fall back to a fraction
rendering. -/
def decimalString (q : ℚ) : String :=
  if q = 0 then "0"
  else
    let neg := decide (q < 0)
    let a := |q|
    match (List.range 40).find? (fun k => (a * (10 : ℚ) ^ k).den = 1) with
    | some k =>
      let bigN := (a * (10 : ℚ) ^ k).num.toNat
      let ip := bigN / 10 ^ k
      let fp := bigN % 10 ^ k
      let core :=
        if k = 0 then toString ip
        else toString ip ++ "." ++ padLeftZeros (toString fp) k
      if neg then "-" ++ core else core
    | none => (if neg then "-" else "") ++ toString a.num.toNat ++ "/" ++ toString a.den

mutual

/-- `String(v)` / `ToString` for a defined value.  Arrays join their elements
with commas, `null`/`undefined` elements becoming empty (Array.prototype
.toString); plain objects render as "[object Object]". -/
def jsToString : Json → String
  | .null => "null"
  | .bool b => if b then "true" else "false"
  | .num q => decimalString q
  | .str s => s
  | .arr xs => String.intercalate "," (jsElemStrs xs)
  | .obj _ => "[object Object]"

def jsElemStrs : JList → List String
  | .nil => []
  | .cons x tl =>
    (match x with
     | .null => ""
     | v => jsToString v) :: jsElemStrs tl

end

/-- `String(v)` where `v` may be `undefined`. -/
def jsToStringU : Option Json → String
  | none => "undefined"
  | some v => jsToString v

/-- `Number(v)` for a defined value (`ToNumber`); objects and arrays go
through their string form (ToPrimitive). -/
def jsNumber : Json → Option ℚ
  | .null => some 0
  | .bool b => some (if b then 1 else 0)
  | .num q => some q
  | .str s => jsStringToNumber s
  | .arr xs => jsStringToNumber (jsToString (.arr xs))
  | .obj fs => jsStringToNumber (jsToString (.obj fs))

/-! ## Series points and sorting

`SdmxPoint` embeds `type SdmxPoint = { date: string; value: number | null }`
(`value = none` is `null`).  `sortPts` is the stable sort by the date
comparator `(a, b) => String(a.date).localeCompare(String(b.date))`, with
`localeCompare` modelled as code-unit comparison (`charListLe`), which agrees
with it on the digit/dash date strings at hand. -/

structure SdmxPoint where
  date : String
  value : Option ℚ
deriving DecidableEq, Repr

/-- Code-unit lexicographic `≤` on character lists. -/
def charListLe : List Char → List Char → Bool
  | [], _ => true
  | _ :: _, [] => false
  | a :: as, b :: bs => if a = b then charListLe as bs else decide (a < b)

def strLeB (a b : String) : Bool := charListLe a.data b.data

/-- Stable insertion of a point into a date-sorted list (the element being
inserted precedes equal-date elements already present, matching a stable
sort where it occurred earlier). -/
def insertPt (p : SdmxPoint) : List SdmxPoint → List SdmxPoint
  | [] => [p]
  | q :: r => if strLeB p.date q.date then p :: q :: r else q :: insertPt p r

/-- Stable sort by ascending date string. -/
def sortPts : List SdmxPoint → List SdmxPoint
  | [] => []
  | p :: r => insertPt p (sortPts r)

/-- Executable check that a point list is ascending by date string. -/
def datesSortedB : List SdmxPoint → Bool
  | [] => true
  | [_] => true
  | a :: b :: r => strLeB a.date b.date && datesSortedB (b :: r)

/-! ## SDMX response normalization (`normalizeData`, imf3.ts lines 87-146)

The source mutates a `results` array across three parsing branches, each
wrapped in `try`/`catch`.  Inside the branches, the only statements that can
throw are property accesses on a `null` element (`s.Obs`, `o['@TIME_PERIOD']`
etc.); a throw is caught, keeps the points pushed so far, and falls through
to the next branch (first `try`) or to the final `return results` (second
`try`, which contains both the `observations` and the `data` branch).  The
branch runners below therefore return the accumulated points together with a
`threw` flag. -/

/-- One observation node to a point: date from the first non-nullish of
`dateKeys` (default `''`), value from the first non-nullish of `valKeys`
(default `null`); `null`/empty-string raw values and NaN conversions give a
`null` value.  Returns `none` when the node is `null` (property access
throws). -/
def obsPointKeys (dateKeys valKeys : List String) (o : Json) : Option SdmxPoint :=
  match o with
  | .null => none
  | _ =>
    let dateV := (coalesceNullish (dateKeys.map (jsonGet o))).getD (.str "")
    let rawV := (coalesceNullish (valKeys.map (jsonGet o))).getD .null
    let value : Option ℚ :=
      match rawV with
      | .null => none
      | .str "" => none
      | r => jsNumber r
    some ⟨jsToString dateV, value⟩

/-- Run one observation array, stopping with `threw = true` at the first
`null` element. -/
def runObsArr (dateKeys valKeys : List String) : List Json → List SdmxPoint × Bool
  | [] => ([], false)
  | o :: rest =>
    match obsPointKeys dateKeys valKeys o with
    | none => ([], true)
    | some p =>
      let r := runObsArr dateKeys valKeys rest
      (p :: r.1, r.2)

def compactDateKeys : List String := ["@TIME_PERIOD", "TIME_PERIOD", "time", "TIME"]
def compactValKeys : List String := ["@OBS_VALUE", "OBS_VALUE", "OBS"]

/-- Run the series list of the CompactData branch: for each series, its
`Obs ?? OBS ?? ObsArray ?? OBSERVATIONS` node is array-ified and processed;
a `null` series (or a `null` observation) throws. -/
def runSeriesList : List Json → List SdmxPoint × Bool
  | [] => ([], false)
  | s :: rest =>
    match s with
    | .null => ([], true)
    | _ =>
      let obsNode := coalesceNullish
        [jsonGet s "Obs", jsonGet s "OBS", jsonGet s "ObsArray", jsonGet s "OBSERVATIONS"]
      let r := runObsArr compactDateKeys compactValKeys (jsArrayify obsNode)
      if r.2 then (r.1, true)
      else
        let rest' := runSeriesList rest
        (r.1 ++ rest'.1, rest'.2)

/-- The CompactData branch: `none` when not entered
(`compact && compact.DataSet` falsy). -/
def runCompact (json : Json) : Option (List SdmxPoint × Bool) :=
  match jsonGet json "CompactData" with
  | none => none
  | some compact =>
    if jsTruthy compact then
      if jsTruthyOpt (jsonGet compact "DataSet") then
        match jsonGet compact "DataSet" with
        | some ds => some (runSeriesList (jsArrayify (jsonGet ds "Series")))
        | none => none
      else none
    else none

/-- A flat-array branch (`observations` or `data`): entered only when the
node is an array. -/
def runFlatBranch (dateKeys valKeys : List String) (node : Option Json) :
    Option (List SdmxPoint × Bool) :=
  match node with
  | some (.arr xs) => some (runObsArr dateKeys valKeys xs.toList)
  | _ => none

def obsDateKeys : List String := ["time", "year", "date", "TIME_PERIOD"]
def obsValKeys : List String := ["value", "OBS_VALUE"]
def dataDateKeys : List String := ["time", "date", "year"]
def dataValKeys : List String := ["value", "Value"]

/-- `normalizeData` (imf3.ts lines 87-146). -/
def normalizeData (json : Json) : List SdmxPoint :=
  if jsTruthy json = false then []
  else
    match runCompact json with
    | some (pts, false) => sortPts pts
    | other =>
      let acc : List SdmxPoint :=
        match other with
        | some (pts, true) => pts
        | _ => []
      match runFlatBranch obsDateKeys obsValKeys (jsonGet json "observations") with
      | some (pts2, threw2) => if threw2 then acc ++ pts2 else sortPts (acc ++ pts2)
      | none =>
        match runFlatBranch dataDateKeys dataValKeys (jsonGet json "data") with
        | some (pts3, threw3) => if threw3 then acc ++ pts3 else sortPts (acc ++ pts3)
        | none => acc

/-! ## Key-variant generation (`generateKeyVariants`, imf3.ts lines 156-195) -/

/-- First-occurrence de-duplication, as `[...new Set(variants)]` (Set keeps
insertion order and ignores re-insertions). -/
def dedupFirst (seen : List String) : List String → List String
  | [] => []
  | x :: xs => if x ∈ seen then dedupFirst seen xs else x :: dedupFirst (x :: seen) xs

/-- Split a character list at a separator, as `String.prototype.split` with a
single-character separator: `"a/"` → `["a", ""]`, `""` → `[""]`. -/
def splitChar (sep : Char) : List Char → List (List Char)
  | [] => [[]]
  | c :: cs =>
    let r := splitChar sep cs
    if c = sep then [] :: r
    else
      match r with
      | [] => [[c]]
      | g :: gs => (c :: g) :: gs

/-- `key.split('.')`: split at a single-character separator (at character
level, see `splitChar`). -/
def jsSplit (sep : Char) (s : String) : List String :=
  (splitChar sep s.data).map String.mk

/-- `parts.join('.')` for a parts array. -/
def joinDot : List String → String
  | [] => ""
  | [x] => x
  | x :: xs => x ++ "." ++ joinDot xs

/-- `s.slice(0, n)` (at character level; the keys at hand are ASCII, where
JavaScript code units and characters agree). -/
def strTake (s : String) (n : Nat) : String := String.mk (s.data.take n)

/-- The fallback variants pushed after the literal input key.
(`area && area.length === N` is rendered as the plain length test: a length
of 2 or 3 already excludes the empty string.) -/
def fallbackVariants (key : String) : List String :=
  let parts := jsSplit '.' key
  (if parts.length = 2 then
      let area := parts.getD 0 ""
      let indicator := parts.getD 1 ""
      (if area.length = 3 then ["A." ++ strTake area 2 ++ "." ++ indicator] else [])
      ++ ["A." ++ area ++ "." ++ indicator,
          area ++ "." ++ indicator ++ ".A",
          indicator ++ "." ++ area]
      ++ (if area.length = 2 then [area ++ "S." ++ indicator, area ++ "A." ++ indicator] else [])
    else if parts.length = 3 then
      let f := parts.getD 0 ""
      let area := parts.getD 1 ""
      let indicator := parts.getD 2 ""
      (if area.length = 3 then
        [joinDot [f, strTake area 2, indicator]] else [])
      ++ (if area.length = 2 then
        [joinDot [f, area ++ "A", indicator],
         joinDot [f, area ++ "S", indicator]] else [])
      ++ [joinDot [f, indicator, area],
          joinDot [area, indicator, f],
          joinDot [area, indicator]]
    else [])

/-- The variant list before de-duplication, in push order: the literal input
always comes first. -/
def rawVariants (key : String) : List String :=
  key :: fallbackVariants key

/-- `generateKeyVariants` (imf3.ts lines 156-195). -/
def generateKeyVariants (key : String) : List String :=
  dedupFirst [] (rawVariants key)

/-! ## URL construction and the winning-key extraction -/

def BASE : String := "https://api.imf.org/external/sdmx/2.1"

/-- `buildDataUrl` (imf3.ts lines 54-60).  The query string is taken as an
already-serialized parameter `qs` (`URLSearchParams.toString()` output, which
percent-encodes `/`); `encodeURIComponent` of the path segments is not
modelled (it is the identity on the dataset keys and flow refs at hand,
which contain only unreserved characters and dots). -/
def buildDataUrl (flowRef key qs : String) : String :=
  let path := BASE ++ "/data/" ++ flowRef ++ "/" ++ key
  if qs = "" then path else path ++ "?" ++ qs

/-- The success-path `meta.key` computation
`successUrl.split('/').pop()?.split('?')[0] || providedKey`
(imf3.ts line 455), at character-list level. -/
def metaKeyFromUrl (successUrl providedKey : String) : String :=
  let lastSeg := (splitChar '/' successUrl.data).getLastD []
  let keyPart := (splitChar '?' lastSeg).headD []
  if keyPart = [] then providedKey else String.mk keyPart

/-! ## The SDMX data-resolution loop and response envelope
(imf3.ts lines 416-491)

The adapter side (`fetchResource`: HTTP fetch + `JSON.parse`) is modelled by
an oracle `o : String → Except String Json` mapping a request URL to either
the thrown error's message or the parsed body.  Each loop iteration performs
exactly one adapter call and appends exactly one `AttemptLog`, so the length
of the attempt list counts the adapter calls.

Scope: this models a `type=data` request routed directly to the SDMX path
(`flowRef` not `WEO`/`WORLDBANK`, which have their own branches modelled
separately below).  The diagnostic passthrough fields (`freq`,
`indicatorLabel`, `timeRange`, `clientTs`) are echoed verbatim into `meta`
and never read; they are omitted from the model. -/

structure AttemptLog where
  url : String
  success : Bool
  error : Option String
  dataPoints : Option Nat
deriving DecidableEq, Repr

structure LoopOut where
  attempts : List AttemptLog
  finalData : List SdmxPoint
  successUrl : String
  finalJson : Option Json

/-- The fallback loop (imf3.ts lines 418-447): one adapter call and one
attempt log per variant; break on the first non-empty normalized result; on
a throw, log a failed attempt and continue. -/
def dataLoop (o : String → Except String Json) (flowRef qs : String) :
    List String → LoopOut
  | [] => ⟨[], [], "", none⟩
  | v :: rest =>
    let url := buildDataUrl flowRef v qs
    match o url with
    | .error e =>
      let r := dataLoop o flowRef qs rest
      ⟨⟨url, false, some e, none⟩ :: r.attempts, r.finalData, r.successUrl, r.finalJson⟩
    | .ok json =>
      let pts := normalizeData json
      let att : AttemptLog := ⟨url, true, none, some pts.length⟩
      if pts.length > 0 then ⟨[att], pts, url, some json⟩
      else
        let r := dataLoop o flowRef qs rest
        ⟨att :: r.attempts, r.finalData, r.successUrl, r.finalJson⟩

/-- The `meta` object of the data-path response.  The success shape populates
`key`/`url`/`variantsTried`; the exhausted shape populates `requestedKey`
only (absent fields are `none`). -/
structure Meta where
  type : String
  flowRef : String
  key : Option String
  requestedKey : Option String
  url : Option String
  variantsTried : Option Nat
deriving DecidableEq, Repr

structure DataResponse where
  status : Nat
  error : Option String
  message : Option String
  meta : Meta
  data : List SdmxPoint
  raw : Option Json
  attempts : List AttemptLog

/-- `providedKey ? generateKeyVariants(providedKey) : ['ALL']`
(imf3.ts line 417). -/
def keyVariantsOf (providedKey : String) : List String :=
  if providedKey = "" then ["ALL"] else generateKeyVariants providedKey

/-- `lastAttempt?.error || 'No data available for any key variant'`
(imf3.ts line 474): `undefined` and the empty string are falsy. -/
def exhaustErrorOf (attempts : List AttemptLog) : String :=
  match attempts.getLastD ⟨"", false, none, none⟩ |>.error with
  | some e => if e = "" then "No data available for any key variant" else e
  | none => "No data available for any key variant"

/-- The SDMX data path: variant list, fallback loop, then the success (HTTP
200) or exhaustion (HTTP 404) envelope (imf3.ts lines 416-491). -/
def sdmxResolve (tp flowRef providedKey qs : String)
    (o : String → Except String Json) : DataResponse :=
  let r := dataLoop o flowRef qs (keyVariantsOf providedKey)
  if r.finalData.length > 0 then
    { status := 200
      error := none
      message := none
      meta := { type := tp, flowRef := flowRef
                key := some (metaKeyFromUrl r.successUrl providedKey)
                requestedKey := none
                url := some r.successUrl
                variantsTried := some r.attempts.length }
      data := r.finalData
      raw := r.finalJson
      attempts := r.attempts }
  else
    { status := 404
      error := some (exhaustErrorOf r.attempts)
      message := some ("Tried " ++ toString r.attempts.length ++ " key variant(s) for "
        ++ flowRef ++ ". Check meta.attempts for details.")
      meta := { type := tp, flowRef := flowRef
                key := none
                requestedKey := some providedKey
                url := none
                variantsTried := none }
      data := []
      raw := none
      attempts := r.attempts }

/-! ## DataMapper (WEO) conversion (imf3.ts lines 262-274)

`values` is the year→value map `json.values[indicator][country3]` as an
entry list (`Object.entries`).  `startPeriod`/`endPeriod` are the raw query
parameters (already `|| undefined`-normalized, so `none` covers both absent
and empty). -/

/-- `y >= startYear` under JavaScript semantics: any comparison with NaN is
false. -/
def jsGeOpt (a b : Option Int) : Bool :=
  match a, b with
  | some x, some y => decide (y ≤ x)
  | _, _ => false

def jsLeOpt (a b : Option Int) : Bool :=
  match a, b with
  | some x, some y => decide (x ≤ y)
  | _, _ => false

/-- The WEO/DataMapper year-map conversion: map to points (`value: null`
unless the upstream value is a number), drop null values, filter to the
period window via `parseInt`, sort by date. -/
def weoData (values : List (String × Json)) (startPeriod endPeriod : Option String) :
    List SdmxPoint :=
  let startYear : Option Int :=
    match startPeriod with
    | some s => parseIntJs s
    | none => some 0
  let endYear : Option Int :=
    match endPeriod with
    | some s => parseIntJs s
    | none => some 9999
  sortPts (((values.map (fun yv =>
      (⟨yv.1, match yv.2 with | .num q => some q | _ => none⟩ : SdmxPoint))).filter
    (fun p => p.value.isSome
      && jsGeOpt (parseIntJs p.date) startYear
      && jsLeOpt (parseIntJs p.date) endYear)))

/-! ## World Bank conversion (imf3.ts lines 333-348) -/

/-- The filter `item => item.value !== null && item.value !== undefined`.
`item.value` on a `null` element throws a TypeError, aborting the whole
conversion (caught by the surrounding handler, which answers 404); this is
the `.error` case. -/
def wbFilter : List Json → Except String (List Json)
  | [] => .ok []
  | item :: rest =>
    if isNullJ item then .error "TypeError"
    else
      match wbFilter rest with
      | .error e => .error e
      | .ok tail =>
        .ok (if notNullish (jsonGet item "value") then item :: tail else tail)

/-- `String(item.date || item.year)` — `||` skips falsy values. -/
def wbDateOf (item : Json) : String :=
  let d := jsonGet item "date"
  jsToStringU (if jsTruthyOpt d then d else jsonGet item "year")

/-- `typeof v === 'number' ? v : parseFloat(v)` — a number is kept as-is, any
other value goes through its JavaScript string form and `parseFloat`
(NaN as `none`). -/
def jsNumericCoerce (v : Json) : Option ℚ :=
  match v.asNum with
  | some q => some q
  | none => parseFloatQ (jsToString v)

/-- The map step of the World Bank conversion. -/
def wbPoint (item : Json) : SdmxPoint :=
  ⟨wbDateOf item,
   match jsonGet item "value" with
   | some v => jsNumericCoerce v
   | none => parseFloatQ "undefined"⟩

/-- The World Bank conversion pipeline
`filter(non-nullish value) . map . filter(!isNaN) . sort`. -/
def wbConvert (dataArray : List Json) : Except String (List SdmxPoint) :=
  match wbFilter dataArray with
  | .error e => .error e
  | .ok kept =>
    .ok (sortPts (((kept.map wbPoint).filter (fun p => p.value.isSome))))

/-- The World Bank branch around the conversion (imf3.ts lines 333-348):
`dataArray = Array.isArray(json) && json.length > 1 ? json[1] : []`, then
`if (!Array.isArray(dataArray) || dataArray.length === 0) throw`. -/
def wbNormalize (json : Json) : Except String (List SdmxPoint) :=
  let dataArray : Json :=
    match json with
    | .arr xs => if xs.toList.length > 1 then (xs.toList.getD 1 .null) else jarr []
    | _ => jarr []
  match dataArray with
  | .arr items =>
    if items.toList.length = 0 then .error "No data in response"
    else wbConvert items.toList
  | _ => .error "No data in response"

/-! ## Client-side series cache (`loadCache`/`saveCache`, Dashboard page)

`localStorage` is modelled as a partial map from keys to the stored
`{t, d}` entries (the JSON round-trip through `localStorage` is the identity
on well-formed entries, `JSON.parse` of a stored object is truthy, and the
stored `d` is an array, so the `!parsed` and `Array.isArray` guards of
`loadCache` always pass for entries written by `saveCache`).  Times are
millisecond timestamps.  `loadCache` is a pure read: it cannot modify the
store, so a stale entry is ignored, not deleted. -/

structure ChartPoint where
  year : String
  value : Option ℚ
deriving DecidableEq, Repr

def CACHE_TTL_MS : Int := 6 * 60 * 60 * 1000

structure CacheEntry where
  t : Int
  d : List ChartPoint
deriving DecidableEq, Repr

def Store : Type := String → Option CacheEntry

/-- `saveCache(key, data)` executed at time `now`. -/
def saveCache (st : Store) (key : String) (now : Int) (data : List ChartPoint) : Store :=
  fun k => if k = key then some ⟨now, data⟩ else st k

/-- `loadCache(key)` executed at time `now`:
null on absence or when `now - t > CACHE_TTL_MS`. -/
def loadCache (st : Store) (key : String) (now : Int) : Option (List ChartPoint) :=
  match st key with
  | none => none
  | some e => if now - e.t > CACHE_TTL_MS then none else some e.d

/-! ## Helper lemmas -/

theorem insertPt_perm (p : SdmxPoint) (l : List SdmxPoint) :
    List.Perm (insertPt p l) (p :: l) := by
  induction l with
  | nil => simp [insertPt]
  | cons q r ih =>
    simp only [insertPt]
    split
    · exact List.Perm.refl _
    · exact (ih.cons q).trans (List.Perm.swap p q r)

theorem sortPts_perm (l : List SdmxPoint) : List.Perm (sortPts l) l := by
  induction l with
  | nil => exact List.Perm.refl _
  | cons p r ih => exact (insertPt_perm p (sortPts r)).trans (ih.cons p)

theorem mem_sortPts {p : SdmxPoint} {l : List SdmxPoint} : p ∈ sortPts l ↔ p ∈ l :=
  (sortPts_perm l).mem_iff

theorem dedupFirst_spec (l seen : List String) :
    (∀ x ∈ dedupFirst seen l, x ∉ seen) ∧ (dedupFirst seen l).Nodup := by
  induction l generalizing seen with
  | nil => simp [dedupFirst]
  | cons x xs ih =>
    by_cases hx : x ∈ seen
    · simpa [dedupFirst, hx] using ih seen
    · simp only [dedupFirst, if_neg hx]
      refine ⟨?_, ?_⟩
      · intro y hy
        rcases List.mem_cons.mp hy with h | h
        · exact h ▸ hx
        · intro hsy
          exact (ih (x :: seen)).1 y h (List.mem_cons_of_mem x hsy)
      · refine List.nodup_cons.mpr ⟨?_, (ih (x :: seen)).2⟩
        intro hmem
        exact (ih (x :: seen)).1 x hmem (List.mem_cons_self x seen)

/-- The loop treats an adapter outcome as a miss when it throws or
normalizes to the empty list. -/
def attemptEmpty : Except String Json → Prop
  | .error _ => True
  | .ok j => normalizeData j = []

/-- A hit: a parsed body whose normalization is non-empty. -/
def attemptNonEmpty (r : Except String Json) : Prop :=
  ∃ j, r = .ok j ∧ normalizeData j ≠ []

theorem dataLoop_all_empty (o : String → Except String Json) (flowRef qs : String)
    (vs : List String) (h : ∀ v ∈ vs, attemptEmpty (o (buildDataUrl flowRef v qs))) :
    (dataLoop o flowRef qs vs).finalData = []
    ∧ (dataLoop o flowRef qs vs).attempts.length = vs.length := by
  induction vs with
  | nil => simp [dataLoop]
  | cons v rest ih =>
    have hv := h v (List.mem_cons_self v rest)
    have hrest := ih (fun w hw => h w (List.mem_cons_of_mem v hw))
    cases hov : o (buildDataUrl flowRef v qs) with
    | error e =>
      simp [dataLoop, hov, hrest.1, hrest.2]
    | ok j =>
      have hj : normalizeData j = [] := by
        have := hv
        rw [hov] at this
        exact this
      simp [dataLoop, hov, hj, hrest.1, hrest.2]

theorem dataLoop_success (o : String → Except String Json) (flowRef qs : String)
    (pre post : List String) (vN : String)
    (hpre : ∀ v ∈ pre, attemptEmpty (o (buildDataUrl flowRef v qs)))
    (hN : attemptNonEmpty (o (buildDataUrl flowRef vN qs))) :
    (dataLoop o flowRef qs (pre ++ vN :: post)).attempts.length = pre.length + 1
    ∧ (dataLoop o flowRef qs (pre ++ vN :: post)).successUrl = buildDataUrl flowRef vN qs
    ∧ (dataLoop o flowRef qs (pre ++ vN :: post)).finalData ≠ [] := by
  induction pre with
  | nil =>
    obtain ⟨j, hok, hne⟩ := hN
    have hlen : normalizeData j ≠ [] → 0 < (normalizeData j).length := by
      intro h
      exact List.length_pos.mpr h
    simp [dataLoop, hok, hlen hne, hne]
  | cons v pre' ih =>
    have hv := hpre v (List.mem_cons_self v pre')
    have hrest := ih (fun w hw => hpre w (List.mem_cons_of_mem v hw))
    cases hov : o (buildDataUrl flowRef v qs) with
    | error e =>
      simp [dataLoop, hov, hrest.1, hrest.2.1, hrest.2.2]
    | ok j =>
      have hj : normalizeData j = [] := by
        have := hv
        rw [hov] at this
        exact this
      simp [dataLoop, hov, hj, hrest.1, hrest.2.1, hrest.2.2]

theorem dataLoop_agree (o o' : String → Except String Json) (flowRef qs : String)
    (pre post : List String) (vN : String)
    (hpre : ∀ v ∈ pre, attemptEmpty (o (buildDataUrl flowRef v qs)))
    (hN : attemptNonEmpty (o (buildDataUrl flowRef vN qs)))
    (hagree : ∀ v ∈ pre ++ [vN],
      o' (buildDataUrl flowRef v qs) = o (buildDataUrl flowRef v qs)) :
    dataLoop o' flowRef qs (pre ++ vN :: post) = dataLoop o flowRef qs (pre ++ vN :: post) := by
  induction pre with
  | nil =>
    obtain ⟨j, hok, hne⟩ := hN
    have ha := hagree vN (by simp)
    have hpos := List.length_pos.mpr hne
    simp only [List.nil_append]
    simp [dataLoop, hok, ha, hpos]
  | cons v pre' ih =>
    have hv := hpre v (List.mem_cons_self v pre')
    have ha := hagree v (by simp)
    have hrest := ih (fun w hw => hpre w (List.mem_cons_of_mem v hw))
      (fun w hw => hagree w (List.mem_cons_of_mem v hw))
    cases hov : o (buildDataUrl flowRef v qs) with
    | error e =>
      rw [hov] at ha
      simp [dataLoop, hov, ha, hrest]
    | ok j =>
      rw [hov] at ha
      simp [dataLoop, hov, ha, hrest]

theorem keyVariantsOf_ne_nil (providedKey : String) : keyVariantsOf providedKey ≠ [] := by
  unfold keyVariantsOf
  split
  · simp
  · unfold generateKeyVariants rawVariants
    simp [dedupFirst]

theorem getLastD_irrel {α : Type} {l : List α} (d d' : α) (h : l ≠ []) :
    l.getLastD d = l.getLastD d' := by
  cases l with
  | nil => exact absurd rfl h
  | cons x xs => rw [List.getLastD_cons, List.getLastD_cons]

theorem splitChar_ne_nil (sep : Char) (l : List Char) : splitChar sep l ≠ [] := by
  induction l with
  | nil => simp [splitChar]
  | cons c cs ih =>
    simp only [splitChar]
    split
    · simp
    · cases h : splitChar sep cs with
      | nil => simp
      | cons g gs => simp

theorem splitChar_of_not_mem (sep : Char) {l : List Char} (h : sep ∉ l) :
    splitChar sep l = [l] := by
  induction l with
  | nil => rfl
  | cons c cs ih =>
    have hc : ¬ c = sep := fun hceq => h (hceq ▸ List.mem_cons_self c cs)
    have hcs : sep ∉ cs := fun hm => h (List.mem_cons_of_mem c hm)
    simp [splitChar, hc, ih hcs]

theorem splitChar_append (sep : Char) {xs : List Char} (ys : List Char) (h : sep ∉ xs) :
    splitChar sep (xs ++ sep :: ys) = xs :: splitChar sep ys := by
  induction xs with
  | nil => simp [splitChar]
  | cons c cs ih =>
    have hc : ¬ c = sep := fun hceq => h (hceq ▸ List.mem_cons_self c cs)
    have hcs : sep ∉ cs := fun hm => h (List.mem_cons_of_mem c hm)
    rw [List.cons_append]
    simp [splitChar, hc, ih hcs]

theorem two_le_splitChar_length (sep : Char) {l : List Char} (h : sep ∈ l) :
    2 ≤ (splitChar sep l).length := by
  induction l with
  | nil => cases h
  | cons c cs ih =>
    by_cases hc : c = sep
    · have := List.length_pos.mpr (splitChar_ne_nil sep cs)
      simp only [splitChar, if_pos hc, List.length_cons]
      omega
    · have hmem : sep ∈ cs := by
        rcases List.mem_cons.mp h with h1 | h1
        · exact absurd h1.symm hc
        · exact h1
      have hlen := ih hmem
      cases hsc : splitChar sep cs with
      | nil => exact absurd hsc (splitChar_ne_nil sep cs)
      | cons g gs =>
        rw [hsc] at hlen
        simp only [splitChar, if_neg hc, hsc, List.length_cons] at hlen ⊢
        omega

theorem splitChar_getLastD_append (sep : Char) (xs ys : List Char) :
    (splitChar sep (xs ++ sep :: ys)).getLastD [] = (splitChar sep ys).getLastD [] := by
  induction xs with
  | nil =>
    have hstep : splitChar sep (sep :: ys) = [] :: splitChar sep ys := by
      simp [splitChar]
    rw [List.nil_append, hstep, List.getLastD_cons]
  | cons c cs ih =>
    rw [List.cons_append]
    by_cases hc : c = sep
    · have hstep : splitChar sep (c :: (cs ++ sep :: ys))
          = [] :: splitChar sep (cs ++ sep :: ys) := by
        simp [splitChar, hc]
      rw [hstep, List.getLastD_cons]
      exact ih
    · cases hsc : splitChar sep (cs ++ sep :: ys) with
      | nil => exact absurd hsc (splitChar_ne_nil sep (cs ++ sep :: ys))
      | cons g gs =>
        have hgs : gs ≠ [] := by
          have h2 := two_le_splitChar_length sep (l := cs ++ sep :: ys) (by simp)
          rw [hsc] at h2
          simp only [List.length_cons] at h2
          intro hnil
          rw [hnil] at h2
          simp at h2
        have hstep : splitChar sep (c :: (cs ++ sep :: ys)) = (c :: g) :: gs := by
          simp [splitChar, hc, hsc]
        rw [hstep, List.getLastD_cons, getLastD_irrel (c :: g) g hgs]
        rw [hsc, List.getLastD_cons] at ih
        exact ih

/-- On a clean winning variant (no `/` or `?` in the key, none in the
serialized query string — guaranteed in the source by `encodeURIComponent` /
`URLSearchParams` encoding), the success-path `meta.key` extraction recovers
the key the winning URL was built from. -/
theorem metaKeyFromUrl_buildDataUrl (flowRef vN qs providedKey : String)
    (hv1 : '/' ∉ vN.data) (hv2 : '?' ∉ vN.data) (hvn : vN.data ≠ [])
    (hq : '/' ∉ qs.data) :
    metaKeyFromUrl (buildDataUrl flowRef vN qs) providedKey = vN := by
  have hdata : ∀ a b : String, (a ++ b).data = a.data ++ b.data := fun a b => rfl
  have hkey : (splitChar '?'
      ((splitChar '/' (buildDataUrl flowRef vN qs).data).getLastD [])).headD [] = vN.data := by
    by_cases hqs : qs = ""
    · have hurl : (buildDataUrl flowRef vN qs).data
          = ((BASE ++ "/data/" ++ flowRef).data) ++ '/' :: vN.data := by
        simp only [buildDataUrl, if_pos hqs, hdata]
        simp [List.append_assoc]
      rw [hurl, splitChar_getLastD_append, splitChar_of_not_mem '/' hv1]
      have hone : ([vN.data] : List (List Char)).getLastD [] = vN.data := rfl
      rw [hone, splitChar_of_not_mem '?' hv2]
      rfl
    · have hurl : (buildDataUrl flowRef vN qs).data
          = ((BASE ++ "/data/" ++ flowRef).data) ++ '/' :: (vN.data ++ '?' :: qs.data) := by
        simp only [buildDataUrl, if_neg hqs, hdata]
        simp [List.append_assoc]
      have hmix : '/' ∉ vN.data ++ '?' :: qs.data := by
        intro hm
        rcases List.mem_append.mp hm with h1 | h1
        · exact hv1 h1
        · rcases List.mem_cons.mp h1 with h2 | h2
          · exact absurd h2 (by decide)
          · exact hq h2
      rw [hurl, splitChar_getLastD_append, splitChar_of_not_mem '/' hmix]
      have hone : ([vN.data ++ '?' :: qs.data] : List (List Char)).getLastD []
          = vN.data ++ '?' :: qs.data := rfl
      rw [hone, splitChar_append '?' qs.data hv2]
      rfl
  show (if (splitChar '?'
      ((splitChar '/' (buildDataUrl flowRef vN qs).data).getLastD [])).headD [] = []
    then providedKey
    else String.mk ((splitChar '?'
      ((splitChar '/' (buildDataUrl flowRef vN qs).data).getLastD [])).headD [])) = vN
  rw [hkey, if_neg hvn]

/-- Modelled from the amended C6 claim's words (spec-side definition, to be
compared with the code path `wbConvert`): an observation is kept exactly when
its `value` field is present, non-null, and is a finite number or a value
whose JavaScript string form parses to a finite number via `parseFloat`; the
kept point carries that number and the observation's date string. -/
def wbSpecPoint (item : Json) : Option SdmxPoint :=
  match jsonGet item "value" with
  | none => none
  | some v =>
    if isNullJ v then none
    else (jsNumericCoerce v).map (fun q => ⟨wbDateOf item, some q⟩)

theorem wbFilter_map_filterMap (arr : List Json) (kept : List Json)
    (h : wbFilter arr = .ok kept) :
    ((kept.map wbPoint).filter (fun p => p.value.isSome)) = arr.filterMap wbSpecPoint := by
  induction arr generalizing kept with
  | nil =>
    simp only [wbFilter] at h
    cases h
    simp
  | cons item rest ih =>
    by_cases hnull : isNullJ item = true
    · rw [show wbFilter (item :: rest) = .error "TypeError" from by
        simp [wbFilter, hnull]] at h
      exact Except.noConfusion h
    · rw [show wbFilter (item :: rest) =
          (match wbFilter rest with
           | .error e => .error e
           | .ok tail =>
             .ok (if notNullish (jsonGet item "value") then item :: tail else tail)) from by
        simp [wbFilter, hnull]] at h
      cases hr : wbFilter rest with
      | error e =>
        rw [hr] at h
        exact Except.noConfusion
          (show Except.error (ε := String) (α := List Json) e = Except.ok kept from h)
      | ok tail =>
        rw [hr] at h
        have h3 : (if notNullish (jsonGet item "value") = true
            then item :: tail else tail) = kept := by
          have h2 : Except.ok (ε := String) (if notNullish (jsonGet item "value") = true
              then item :: tail else tail) = Except.ok kept := h
          injection h2
        have htail := ih tail hr
        by_cases hkeep : notNullish (jsonGet item "value") = true
        · rw [if_pos hkeep] at h3
          subst h3
          cases hv : jsonGet item "value" with
          | none => rw [hv] at hkeep; simp [notNullish] at hkeep
          | some v =>
            rw [hv] at hkeep
            have hvn : isNullJ v = false := by
              simp [notNullish] at hkeep
              exact hkeep
            have hsp : wbSpecPoint item
                = (jsNumericCoerce v).map (fun q => ⟨wbDateOf item, some q⟩) := by
              simp [wbSpecPoint, hv, hvn]
            have hwp : wbPoint item = ⟨wbDateOf item, jsNumericCoerce v⟩ := by
              simp [wbPoint, hv]
            cases hc : jsNumericCoerce v with
            | none =>
              rw [hc] at hsp
              simp [List.filterMap_cons, hsp, List.filter_cons, hwp, hc, htail]
            | some q =>
              rw [hc] at hsp
              simp [List.filterMap_cons, hsp, List.filter_cons, hwp, hc, htail]
        · rw [if_neg hkeep] at h3
          subst h3
          have hsp : wbSpecPoint item = none := by
            cases hv : jsonGet item "value" with
            | none => simp [wbSpecPoint, hv]
            | some v =>
              rw [hv] at hkeep
              simp only [notNullish] at hkeep
              have hvn : isNullJ v = true := by
                cases hb : isNullJ v with
                | true => rfl
                | false => rw [hb] at hkeep; simp at hkeep
              simp [wbSpecPoint, hv, hvn]
          simp [List.filterMap_cons, hsp, htail]

theorem JList.toList_ofList (l : List Json) : (JList.ofList l).toList = l := by
  induction l with
  | nil => rfl
  | cons x xs ih => simp [JList.ofList, JList.toList, ih]

/-! ## Claims -/

/-- C1: for the SDMX resolution loop, if the Nth key variant is the first
whose adapter call returns a non-empty normalized point list (every earlier
variant throws or normalizes to empty), then exactly N attempts are logged —
each loop iteration performs exactly one adapter call and logs exactly one
attempt, so the attempt count is the adapter-call count — and the loop's
entire outcome is unchanged under any modification of the adapter's
behaviour beyond the first N variants, i.e. no (N+1)th call is made. -/
theorem c1_first_nonempty_stops
    (o o' : String → Except String Json) (flowRef qs : String)
    (pre post : List String) (vN : String)
    (hpre : ∀ v ∈ pre, attemptEmpty (o (buildDataUrl flowRef v qs)))
    (hN : attemptNonEmpty (o (buildDataUrl flowRef vN qs)))
    (hagree : ∀ v ∈ pre ++ [vN],
      o' (buildDataUrl flowRef v qs) = o (buildDataUrl flowRef v qs)) :
    (dataLoop o flowRef qs (pre ++ vN :: post)).attempts.length = pre.length + 1
    ∧ dataLoop o' flowRef qs (pre ++ vN :: post)
        = dataLoop o flowRef qs (pre ++ vN :: post) :=
  ⟨(dataLoop_success o flowRef qs pre post vN hpre hN).1,
   dataLoop_agree o o' flowRef qs pre post vN hpre hN hagree⟩

/-- A one-observation body whose normalization is non-empty, for witnesses. -/
def wJson : Json :=
  jobj [("observations", jarr [jobj [("time", .str "2020"), ("value", .num 1)]])]

theorem c1_witness :
    (dataLoop (fun _ => Except.ok wJson) "IFS" "" ([] ++ "K" :: ["L"])).attempts.length
      = List.length ([] : List String) + 1
    ∧ dataLoop (fun _ => Except.ok wJson) "IFS" "" ([] ++ "K" :: ["L"])
        = dataLoop (fun _ => Except.ok wJson) "IFS" "" ([] ++ "K" :: ["L"]) :=
  c1_first_nonempty_stops (fun _ => Except.ok wJson) (fun _ => Except.ok wJson)
    "IFS" "" [] ["L"] "K"
    (fun v hv => absurd hv (List.not_mem_nil v))
    ⟨wJson, rfl, by decide⟩
    (fun _ _ => rfl)

/-- C2: `generateKeyVariants` always returns a non-empty list whose first
element is the input key and which contains no duplicates.  (It is a total
pure Lean function, so determinism, absence of side effects and absence of
exceptions hold by construction.) -/
theorem c2_generateKeyVariants_props (k : String) :
    generateKeyVariants k ≠ [] ∧ (generateKeyVariants k).head? = some k
    ∧ (generateKeyVariants k).Nodup := by
  have hnodup : (generateKeyVariants k).Nodup := (dedupFirst_spec (rawVariants k) []).2
  have hform : generateKeyVariants k = k :: dedupFirst [k] (fallbackVariants k) := by
    simp [generateKeyVariants, rawVariants, dedupFirst]
  exact ⟨by rw [hform]; simp, by rw [hform]; rfl, hnodup⟩

/-- C3: when every key variant of an SDMX data request throws or yields zero
points (the EXHAUSTED outcome), the response has HTTP status 404, an empty
`data` list, and a non-empty `attempts` list whose length equals the number
of variants attempted (all of them). -/
theorem c3_exhausted_envelope (tp flowRef providedKey qs : String)
    (o : String → Except String Json)
    (h : ∀ v ∈ keyVariantsOf providedKey, attemptEmpty (o (buildDataUrl flowRef v qs))) :
    (sdmxResolve tp flowRef providedKey qs o).status = 404
    ∧ (sdmxResolve tp flowRef providedKey qs o).data = []
    ∧ (sdmxResolve tp flowRef providedKey qs o).attempts.length
        = (keyVariantsOf providedKey).length
    ∧ (sdmxResolve tp flowRef providedKey qs o).attempts ≠ [] := by
  have hl := dataLoop_all_empty o flowRef qs (keyVariantsOf providedKey) h
  have hne : (dataLoop o flowRef qs (keyVariantsOf providedKey)).attempts ≠ [] := by
    intro hnil
    rw [hnil] at hl
    exact keyVariantsOf_ne_nil providedKey (List.eq_nil_of_length_eq_zero hl.2.symm)
  refine ⟨?_, ?_, ?_, ?_⟩ <;> simp [sdmxResolve, hl.1, hl.2, hne]

theorem c3_witness :
    (sdmxResolve "data" "IFS" "X" "" (fun _ => Except.error "HTTP 500: boom")).status = 404
    ∧ (sdmxResolve "data" "IFS" "X" "" (fun _ => Except.error "HTTP 500: boom")).data = []
    ∧ (sdmxResolve "data" "IFS" "X" ""
        (fun _ => Except.error "HTTP 500: boom")).attempts.length
        = (keyVariantsOf "X").length
    ∧ (sdmxResolve "data" "IFS" "X" "" (fun _ => Except.error "HTTP 500: boom")).attempts
        ≠ [] :=
  c3_exhausted_envelope "data" "IFS" "X" "" (fun _ => Except.error "HTTP 500: boom")
    (fun _ _ => trivial)

/-- C4 counterexample: a request whose single variant fails reaches the
EXHAUSTED envelope; its `meta` carries the originally requested key but NO
count of the variants tried (`meta.variantsTried` is absent) — the count
appears only in the top-level `message` string.  This refutes the claim
that on EXHAUSTED "the response's meta object includes ... a count of the
variants tried". -/
theorem c4_counterexample :
    (sdmxResolve "data" "IFS" "X" ""
        (fun _ => Except.error "HTTP 404: Not Found")).meta.variantsTried = none
    ∧ (sdmxResolve "data" "IFS" "X" ""
        (fun _ => Except.error "HTTP 404: Not Found")).meta.requestedKey = some "X"
    ∧ (sdmxResolve "data" "IFS" "X" ""
        (fun _ => Except.error "HTTP 404: Not Found")).message
        = some "Tried 1 key variant(s) for IFS. Check meta.attempts for details."
    ∧ (sdmxResolve "data" "IFS" "X" ""
        (fun _ => Except.error "HTTP 404: Not Found")).status = 404 :=
  ⟨by decide, by decide, by decide, by decide⟩

/-- C4 (amended): on EXHAUSTED, `meta` includes the originally requested key,
and the count of variants tried appears in the response's top-level `message`
string (not inside `meta`); on SUCCESS, `meta` includes the winning key and
the URL that succeeded (the winning-key hypothesis set excludes `/` and `?`
characters, which the source's percent-encoding rules out of the path
segment and query string). -/
theorem c4_amended (tp flowRef providedKey qs : String)
    (o : String → Except String Json) :
    ((∀ v ∈ keyVariantsOf providedKey, attemptEmpty (o (buildDataUrl flowRef v qs))) →
      (sdmxResolve tp flowRef providedKey qs o).meta.requestedKey = some providedKey
      ∧ (sdmxResolve tp flowRef providedKey qs o).meta.variantsTried = none
      ∧ (sdmxResolve tp flowRef providedKey qs o).message
          = some ("Tried " ++ toString (keyVariantsOf providedKey).length
              ++ " key variant(s) for " ++ flowRef ++ ". Check meta.attempts for details."))
    ∧ (∀ pre post vN, keyVariantsOf providedKey = pre ++ vN :: post →
        (∀ v ∈ pre, attemptEmpty (o (buildDataUrl flowRef v qs))) →
        attemptNonEmpty (o (buildDataUrl flowRef vN qs)) →
        '/' ∉ vN.data → '?' ∉ vN.data → vN.data ≠ [] → '/' ∉ qs.data →
        (sdmxResolve tp flowRef providedKey qs o).meta.key = some vN
        ∧ (sdmxResolve tp flowRef providedKey qs o).meta.url
            = some (buildDataUrl flowRef vN qs)) := by
  constructor
  · intro h
    have hl := dataLoop_all_empty o flowRef qs (keyVariantsOf providedKey) h
    refine ⟨?_, ?_, ?_⟩ <;> simp [sdmxResolve, hl.1, hl.2]
  · intro pre post vN hsplit hpre hN hv1 hv2 hvn hq
    have hs := dataLoop_success o flowRef qs pre post vN hpre hN
    rw [← hsplit] at hs
    have hpos : 0 < (dataLoop o flowRef qs (keyVariantsOf providedKey)).finalData.length :=
      List.length_pos.mpr hs.2.2
    have hkey := metaKeyFromUrl_buildDataUrl flowRef vN qs providedKey hv1 hv2 hvn hq
    refine ⟨?_, ?_⟩ <;> simp [sdmxResolve, hpos, hs.2.1, hkey]

theorem c4_witness :
    (sdmxResolve "data" "IFS" "K" "" (fun _ => Except.ok wJson)).meta.key = some "K"
    ∧ (sdmxResolve "data" "IFS" "K" "" (fun _ => Except.ok wJson)).meta.url
        = some (buildDataUrl "IFS" "K" "") :=
  (c4_amended "data" "IFS" "K" "" (fun _ => Except.ok wJson)).2 [] [] "K"
    (by decide)
    (fun v hv => absurd hv (List.not_mem_nil v))
    ⟨wJson, rfl, by decide⟩
    (by decide) (by decide) (by decide) (by decide)

/-- C5: when the adapter call for one key variant throws, the loop appends a
failed attempt carrying the error message and continues with the remaining
variants unchanged; and the whole data-path handler is total, always
producing a well-formed response with status 200 or 404 — a transport error
never becomes a crash. -/
theorem c5_transport_error_continues (tp flowRef providedKey qs v e : String)
    (rest : List String) (o : String → Except String Json)
    (h : o (buildDataUrl flowRef v qs) = .error e) :
    dataLoop o flowRef qs (v :: rest)
      = ⟨⟨buildDataUrl flowRef v qs, false, some e, none⟩
           :: (dataLoop o flowRef qs rest).attempts,
         (dataLoop o flowRef qs rest).finalData,
         (dataLoop o flowRef qs rest).successUrl,
         (dataLoop o flowRef qs rest).finalJson⟩
    ∧ ((sdmxResolve tp flowRef providedKey qs o).status = 200
       ∨ (sdmxResolve tp flowRef providedKey qs o).status = 404) := by
  constructor
  · simp [dataLoop, h]
  · by_cases hd : 0 < (dataLoop o flowRef qs (keyVariantsOf providedKey)).finalData.length
    · left
      simp [sdmxResolve, hd]
    · right
      simp [sdmxResolve, hd]

theorem c5_witness :
    dataLoop (fun _ => Except.error "HTTP 503: unavailable") "IFS" "" ["K"]
      = ⟨⟨buildDataUrl "IFS" "K" "", false, some "HTTP 503: unavailable", none⟩
           :: (dataLoop (fun _ => Except.error "HTTP 503: unavailable") "IFS" "" []).attempts,
         (dataLoop (fun _ => Except.error "HTTP 503: unavailable") "IFS" "" []).finalData,
         (dataLoop (fun _ => Except.error "HTTP 503: unavailable") "IFS" "" []).successUrl,
         (dataLoop (fun _ => Except.error "HTTP 503: unavailable") "IFS" "" []).finalJson⟩
    ∧ ((sdmxResolve "data" "IFS" "X" ""
          (fun _ => Except.error "HTTP 503: unavailable")).status = 200
       ∨ (sdmxResolve "data" "IFS" "X" ""
          (fun _ => Except.error "HTTP 503: unavailable")).status = 404) :=
  c5_transport_error_continues "data" "IFS" "X" "" "K" "HTTP 503: unavailable" []
    (fun _ => Except.error "HTTP 503: unavailable") rfl

/-- C10: a data request with an absent or empty `key` parameter skips variant
generation (the variant list is the literal `['ALL']`) and the loop performs
exactly one attempt, whose URL is built from the literal key `ALL` —
regardless of the adapter's behaviour. -/
theorem c10_empty_key_single_attempt (tp flowRef qs : String)
    (o : String → Except String Json) :
    keyVariantsOf "" = ["ALL"]
    ∧ (sdmxResolve tp flowRef "" qs o).attempts.map (fun a => a.url)
        = [buildDataUrl flowRef "ALL" qs] := by
  refine ⟨rfl, ?_⟩
  have hkv : keyVariantsOf "" = ["ALL"] := rfl
  cases ho : o (buildDataUrl flowRef "ALL" qs) with
  | error e =>
    simp [sdmxResolve, hkv, dataLoop, ho]
  | ok j =>
    by_cases hp : 0 < (normalizeData j).length
    · simp [sdmxResolve, hkv, dataLoop, ho, hp]
    · simp [sdmxResolve, hkv, dataLoop, ho, hp]

/-- World Bank observation with a `null` value (dropped). -/
def exObsNull : Json := jobj [("date", .str "2020"), ("value", .null)]

/-- World Bank observation whose value is the STRING "5.3" (non-numeric). -/
def exObsStr : Json := jobj [("date", .str "2021"), ("value", .str "5.3")]

/-- A `[metadata, observations]` World Bank response containing both. -/
def exWB : Json := jarr [.null, jarr [exObsNull, exObsStr]]

/-- C6 counterexample: for the response `[meta, [{date:"2020", value:null},
{date:"2021", value:"5.3"}]]` the normalized output KEEPS the 2021
observation (as value 5.3 via `parseFloat`) although its `value` field is a
string, not a finite number — refuting "the normalized data contains exactly
the observations whose value is a finite number (entries with null,
undefined, or non-numeric values are dropped)". -/
theorem c6_counterexample :
    wbNormalize exWB = .ok [⟨"2021", some ((53 : ℚ) / 10)⟩]
    ∧ (jsonGet exObsStr "value").map Json.isNum = some false
    ∧ jsonGet exObsNull "value" = some Json.null := by
  refine ⟨by with_unfolding_all decide, by decide, by decide⟩

/-- C6 (amended): for every World Bank response of the form
`[metadata, observations]` that converts without a thrown error, the
normalized data is exactly (up to the date sort) the observations whose
value is a finite number, or a non-null value whose JavaScript string form
parses to a finite number via `parseFloat` (numeric strings are kept,
coerced); entries with null, undefined, or non-coercible values are dropped
rather than represented as points with value null. -/
theorem c6_amended (metaJ : Json) (obs : List Json) (pts : List SdmxPoint)
    (h : wbNormalize (jarr [metaJ, jarr obs]) = .ok pts) :
    List.Perm pts (obs.filterMap wbSpecPoint) := by
  have hshape : wbNormalize (jarr [metaJ, jarr obs])
      = (if obs.length = 0 then .error "No data in response" else wbConvert obs) := by
    have h0 : wbNormalize (jarr [metaJ, jarr obs])
        = (if (JList.ofList obs).toList.length = 0 then Except.error "No data in response"
           else wbConvert (JList.ofList obs).toList) := rfl
    rw [h0, JList.toList_ofList]
  rw [hshape] at h
  by_cases hobs : obs.length = 0
  · rw [if_pos hobs] at h
    exact Except.noConfusion h
  · rw [if_neg hobs] at h
    unfold wbConvert at h
    cases hf : wbFilter obs with
    | error e =>
      rw [hf] at h
      exact Except.noConfusion h
    | ok kept =>
      rw [hf] at h
      have hpts : pts = sortPts ((kept.map wbPoint).filter (fun p => p.value.isSome)) := by
        have h2 : Except.ok (ε := String)
            (sortPts ((kept.map wbPoint).filter (fun p => p.value.isSome))) = Except.ok pts := h
        injection h2 with h3
        exact h3.symm
      rw [hpts, wbFilter_map_filterMap obs kept hf]
      exact sortPts_perm _

theorem c6_witness :
    List.Perm [⟨"2021", some ((53 : ℚ) / 10)⟩] ([exObsNull, exObsStr].filterMap wbSpecPoint) :=
  c6_amended .null [exObsNull, exObsStr] [⟨"2021", some ((53 : ℚ) / 10)⟩]
    (by with_unfolding_all decide)

/-- C7: a cache entry saved at time `T` with a non-empty point list is
returned (non-null) by `loadCache` at any time up to `T + TTL - 1` ms, is
reported as a miss (`none`) at any time from `T + TTL + 1` ms on, and the
stale entry itself is not deleted — it is still present in the store
(`loadCache` is a pure read and cannot remove it). -/
theorem c7_cache_ttl (st : Store) (key : String) (T : Int) (d : List ChartPoint)
    (now : Int) (_hd : d ≠ []) :
    (now ≤ T + CACHE_TTL_MS - 1 → loadCache (saveCache st key T d) key now = some d)
    ∧ (T + CACHE_TTL_MS + 1 ≤ now → loadCache (saveCache st key T d) key now = none)
    ∧ saveCache st key T d key = some ⟨T, d⟩ := by
  have hsave : saveCache st key T d key = some ⟨T, d⟩ := by
    simp [saveCache]
  refine ⟨?_, ?_, hsave⟩
  · intro hnow
    unfold loadCache
    rw [hsave]
    have hc : ¬ (now - T > CACHE_TTL_MS) := by
      unfold CACHE_TTL_MS at hnow ⊢
      omega
    simp [hc]
  · intro hnow
    unfold loadCache
    rw [hsave]
    have hc : now - T > CACHE_TTL_MS := by
      unfold CACHE_TTL_MS at hnow ⊢
      omega
    simp [hc]

theorem c7_witness :
    loadCache (saveCache (fun _ => none) "k" 0 [⟨"2020", some 1⟩]) "k" (CACHE_TTL_MS - 1)
      = some [⟨"2020", some 1⟩]
    ∧ loadCache (saveCache (fun _ => none) "k" 0 [⟨"2020", some 1⟩]) "k" (CACHE_TTL_MS + 1)
      = none :=
  ⟨(c7_cache_ttl (fun _ => none) "k" 0 [⟨"2020", some 1⟩] (CACHE_TTL_MS - 1)
      (by decide)).1 (by decide),
   (c7_cache_ttl (fun _ => none) "k" 0 [⟨"2020", some 1⟩] (CACHE_TTL_MS + 1)
      (by decide)).2.1 (by decide)⟩

/-- One well-formed series whose observations arrive in descending date
order, followed by a `null` series entry. -/
def seriesBad : Json :=
  jobj [("Obs", jarr
    [jobj [("@TIME_PERIOD", .str "2021"), ("@OBS_VALUE", .str "5")],
     jobj [("@TIME_PERIOD", .str "2020"), ("@OBS_VALUE", .str "3")]])]

/-- A CompactData body whose `Series` array holds a valid series and then
`null`: processing the valid series pushes two points, the `null` series
throws (`s.Obs` on null), the catch falls through, no alternate shape
matches, and the final `return results` hands back the partial list
UNSORTED — although the comment at that return site says it returns an
empty array, and the claim (and the sort comments above) say every returned
list is sorted ascending by date. -/
def jsonBad : Json :=
  jobj [("CompactData", jobj [("DataSet", jobj [("Series", jarr [seriesBad, .null])])])]

/-- C8: evaluation of `normalizeData` at the failing input `jsonBad`: the
result is the non-empty, unsorted partial list `[2021, 2020]`, contradicting
the sortedness invariant (and the source's own "return empty array"
comment). -/
theorem c8_bug_eval :
    normalizeData jsonBad = [⟨"2021", some 5⟩, ⟨"2020", some 3⟩]
    ∧ datesSortedB (normalizeData jsonBad) = false := by
  exact ⟨by decide, by decide⟩

/-- C9: every point produced by the WEO/DataMapper conversion has a non-null
numeric value — year entries whose upstream value is not a number are mapped
to `value: null` and then dropped by the filter, never emitted. -/
theorem c9_weo_values_nonnull (values : List (String × Json))
    (startPeriod endPeriod : Option String) :
    ((weoData values startPeriod endPeriod).all (fun p => p.value.isSome)) = true := by
  rw [List.all_eq_true]
  intro p hp
  simp only [weoData] at hp
  have h1 := mem_sortPts.mp hp
  have h2 := (List.mem_filter.mp h1).2
  simp only [Bool.and_eq_true] at h2
  exact h2.1.1

example : jsStringToNumber "5" = some 5 := by decide
example : parseFloatQ "5.3" = some ((53 : ℚ) / 10) := by with_unfolding_all decide
example : parseFloatQ "abc" = none := by decide
example : jsStringToNumber "" = some 0 := by decide
example : parseIntJs "2020" = some 2020 := by decide
example : decimalString ((53 : ℚ) / 10) = "5.3" := by with_unfolding_all decide
